import Mathlib

/-!
A two-worker daemon supervisor (`src/main.c`)

A shallow embedding of the bookkeeping done by the SIGCHLD handler
`handle_sigchld`, of the monitor loop of `main`, and of the two worker
processes that talk through the named pipes `/tmp/fifo1` and `/tmp/fifo2`.

C `int` and `pid_t` values are mathematical integers (`Int`); the 32-bit
representation only matters where a value crosses a pipe as four bytes, and is
explicit there.  Everything the operating system answers (the results of
`waitpid`, `read`, `open`, `time`) is an explicit argument of the model.
-/

namespace Daemon

/-! ## Constants of `main.c` -/

/-- The constant `TIMEOUT` of line 16, in seconds. -/
def TIMEOUT : Int := 30

/-- The signal number `SIGKILL` of `<signal.h>`. -/
def SIGKILL : Int := 9

/-! ## Wait-status decoding (`<sys/wait.h>`, Linux encoding)

Bit operations on a C `int` are written arithmetically: `s & 0x7f` is
`s % 128` and `s >> 8` is `s / 256` (Lean integer division by a positive
literal rounds down, like an arithmetic shift). -/

/-- The `WTERMSIG(status)` of `<sys/wait.h>`: `status & 0x7f`. -/
def WTERMSIG (status : Int) : Int := status % 128

/-- The `WEXITSTATUS(status)` of `<sys/wait.h>`: `(status & 0xff00) >> 8`. -/
def WEXITSTATUS (status : Int) : Int := (status % 65536 - status % 256) / 256

/-- The `WIFEXITED(status)` of `<sys/wait.h>`: `WTERMSIG(status) == 0`. -/
def WIFEXITED (status : Int) : Bool := WTERMSIG status == 0

/-- Conversion of a small integer to `signed char`. -/
def toSignedChar (x : Int) : Int := (x + 128) % 256 - 128

/-- The `WIFSIGNALED(status)` of `<sys/wait.h>`:
`((signed char) ((status & 0x7f) + 1) >> 1) > 0`. -/
def WIFSIGNALED (status : Int) : Bool := decide (toSignedChar (status % 128 + 1) / 2 > 0)

/-- The status word `waitpid` reports for a child that called `exit(code)`. -/
def exitedStatus (code : Int) : Int := (code % 256) * 256

/-- The status word `waitpid` reports for a child killed by signal `sig`
(without a core dump). -/
def signaledStatus (sig : Int) : Int := sig % 128

/-! ## Log records

`log_message` receives either a fixed text or a buffer filled by `snprintf`;
a record keeps the format and its integer arguments. -/

/-- The records `main.c` hands to `log_message`. -/
inductive Msg where
  /-- Format `Child %d exited with status %d` (line 56). -/
  | childExited (pid exit_status : Int)
  /-- Format `Child %d terminated by signal %d` (line 61). -/
  | childSignaled (pid exit_status : Int)
  /-- The buffer `msg` of `handle_sigchld` when neither branch filled it. -/
  | unfilled
  /-- Text `Daemon proceeding...` (line 232). -/
  | proceeding
  /-- Text `Timeout reached. Killing remaining child processes...` (line 238). -/
  | timeoutReached
  /-- Text `Killed child due to timeout.` (line 245). -/
  | killedChild
  /-- Format `Child PID %d exit status: %d` (line 252). -/
  | finalStatus (pid code : Int)
  /-- Format `The larger number is: %d` (line 210). -/
  | largerNumber (max : Int)
  /-- Text `Daemon shutting down.` (line 262). -/
  | shuttingDown
  deriving DecidableEq, Repr

/-- The text of a record, as `snprintf` and `log_message` produce it (without
the timestamp). -/
def Msg.text : Msg → String
  | .childExited pid s => "Child " ++ toString pid ++ " exited with status " ++ toString s
  | .childSignaled pid s => "Child " ++ toString pid ++ " terminated by signal " ++ toString s
  | .unfilled => ""
  | .proceeding => "Daemon proceeding..."
  | .timeoutReached => "Timeout reached. Killing remaining child processes..."
  | .killedChild => "Killed child due to timeout."
  | .finalStatus pid code => "Child PID " ++ toString pid ++ " exit status: " ++ toString code
  | .largerNumber max => "The larger number is: " ++ toString max
  | .shuttingDown => "Daemon shutting down."

/-! ## The globals and the SIGCHLD handler -/

/-- The globals `child_exit_count`, `child_pids[2]`, `child_exit_status[2]`. -/
structure Globals where
  child_exit_count : Int
  child_pids : Fin 2 → Int
  child_exit_status : Fin 2 → Int

/-- The two-element array holding `x` then `y`. -/
def pair (x y : Int) : Fin 2 → Int := fun i => if i = 0 then x else y

/-- The globals as initialised at line 18-20, once both `fork` calls have
filled `child_pids`. -/
def initialGlobals (pid0 pid1 : Int) : Globals :=
  { child_exit_count := 0, child_pids := pair pid0 pid1, child_exit_status := pair (-1) (-1) }

/-- One terminated child as `waitpid(-1, &status, WNOHANG)` returns it. -/
structure Terminated where
  pid : Int
  status : Int
  deriving DecidableEq, Repr

/-- The `for (i = 0; i < 2; i++)` loop of lines 64-69: the first slot whose
pid matches receives `exit_status`, then `break`. -/
def storeStatus (child_pids child_exit_status : Fin 2 → Int) (pid exit_status : Int) :
    Fin 2 → Int :=
  if child_pids 0 = pid then Function.update child_exit_status 0 exit_status
  else if child_pids 1 = pid then Function.update child_exit_status 1 exit_status
  else child_exit_status

/-- Lines 52-62: the temporary `exit_status` and the buffer `msg`. -/
def decodeStatus (pid status : Int) : Int × Msg :=
  if WIFEXITED status then (WEXITSTATUS status, Msg.childExited pid (WEXITSTATUS status))
  else if WIFSIGNALED status then (WTERMSIG status, Msg.childSignaled pid (WTERMSIG status))
  else (-1, Msg.unfilled)

/-- The body of the `while` loop of `handle_sigchld` (lines 51-73) for one
child returned by `waitpid`: decode, store into the matching slot, log, count. -/
def reapOne (g : Globals) (t : Terminated) : Globals × Msg :=
  let d := decodeStatus t.pid t.status
  ({ child_exit_count := g.child_exit_count + 1
     child_pids := g.child_pids
     child_exit_status := storeStatus g.child_pids g.child_exit_status t.pid d.1 }, d.2)

/-- What one run of `handle_sigchld` leaves behind. -/
structure Reaped where
  /-- The globals after the handler returned. -/
  globals : Globals
  /-- The records written by the handler, oldest first. -/
  logged : List Msg
  /-- The answers of `waitpid` the handler did not consume. -/
  pending : List Terminated

/-- The handler `handle_sigchld`: `while ((pid = waitpid(-1, &status, WNOHANG)) > 0) ...`.
The list holds the children `waitpid` has to report, in the order it reports
them; on the empty list `waitpid` returns `0` or `-1` and the loop ends. -/
def handle_sigchld (g : Globals) : List Terminated → Reaped
  | [] => { globals := g, logged := [], pending := [] }
  | t :: rest =>
    if t.pid > 0 then
      let r := handle_sigchld (reapOne g t).1 rest
      { globals := r.globals, logged := (reapOne g t).2 :: r.logged, pending := r.pending }
    else { globals := g, logged := [], pending := rest }

/-- The slot the loop of lines 64-69 writes for `pid`, if any. -/
def slotOf (child_pids : Fin 2 → Int) (pid : Int) : Option (Fin 2) :=
  if child_pids 0 = pid then some 0 else if child_pids 1 = pid then some 1 else none

/-- The status is one that `waitpid` without `WUNTRACED` reports: a normal
exit or a termination by signal. -/
def terminatedStatus (status : Int) : Prop := WIFEXITED status = true ∨ WIFSIGNALED status = true

instance (status : Int) : Decidable (terminatedStatus status) := by
  unfold terminatedStatus; infer_instance

/-- The handler body folded over a list of children, without the `pid > 0`
test: what `handle_sigchld` computes when every reported pid is positive. -/
def reapAll (g : Globals) (children : List Terminated) : Globals :=
  children.foldl (fun acc t => (reapOne acc t).1) g

/-! ## The monitor loop of `main` (lines 226-269) -/

/-- What the supervisor does to the outside world. -/
inductive Action where
  /-- A call of `log_message`. -/
  | log (m : Msg)
  /-- A call `kill(pid, sig)`. -/
  | kill (pid sig : Int)
  /-- The call `fclose(log_file)`. -/
  | fcloseLog
  /-- A call `unlink(path)`. -/
  | unlink (path : String)
  deriving DecidableEq, Repr

/-- The path `FIFO1` of line 13. -/
def FIFO1 : String := "/tmp/fifo1"

/-- The path `FIFO2` of line 14. -/
def FIFO2 : String := "/tmp/fifo2"

/-- One pass through the body of the monitor loop, as far as the outside world
decides it. -/
structure Poll where
  /-- The children `handle_sigchld` reaps while the loop logs and sleeps. -/
  reaped : List Terminated
  /-- The value of `time(NULL)` at line 236. -/
  now : Int

/-- One iteration of the kill loop (lines 239-247) for slot `i`. -/
def killIteration (g : Globals) (i : Fin 2) : List Action :=
  if g.child_exit_status i = -1 then
    [Action.kill (g.child_pids i) SIGKILL, Action.log Msg.killedChild]
  else []

/-- One iteration of the final status loop (lines 251-254) for slot `i`. -/
def statusLine (g : Globals) (i : Fin 2) : Action :=
  Action.log (Msg.finalStatus (g.child_pids i) (WEXITSTATUS (g.child_exit_status i)))

/-- The timeout branch (lines 237-257), run on the globals as they are when
the branch is entered; a SIGCHLD delivered while the branch runs is outside
the model. -/
def timeoutBranch (g : Globals) : List Action :=
  [Action.log Msg.timeoutReached] ++ killIteration g 0 ++ killIteration g 1 ++
    [statusLine g 0, statusLine g 1]

/-- The loop `while (child_exit_count < 2)` of lines 230-259.  The result is
`none` while the loop is still running when the list of polls is used up. -/
def monitorLoop (start_time : Int) : Globals → List Poll → Option (Globals × List Action)
  | g, [] => if g.child_exit_count < 2 then none else some (g, [])
  | g, p :: rest =>
    if g.child_exit_count < 2 then
      let r := handle_sigchld g p.reaped
      let acts := Action.log Msg.proceeding :: r.logged.map Action.log
      if p.now - start_time > TIMEOUT then
        some (r.globals, acts ++ timeoutBranch r.globals)
      else
        match monitorLoop start_time r.globals rest with
        | none => none
        | some (g1, more) => some (g1, acts ++ more)
    else some (g, [])

/-- Lines 261-269: what `main` does after the loop. -/
def shutdown : List Action :=
  [Action.log Msg.shuttingDown, Action.fcloseLog, Action.unlink FIFO1, Action.unlink FIFO2]

/-- Lines 226-269 of `main`: the monitor loop, the shutdown, and the value
`main` returns. -/
def superviseAndExit (start_time : Int) (g : Globals) (polls : List Poll) :
    Option (List Action × Int) :=
  match monitorLoop start_time g polls with
  | none => none
  | some (_, acts) => some (acts ++ shutdown, 0)

/-! ## Values crossing a pipe

`write(fd, &x, sizeof(int))` sends the four bytes of the object `x`,
`read(fd, &x, sizeof(int))` overwrites the first bytes of the object `x` with
what arrived.  Bytes are in little-endian order. -/

/-- The four bytes of a 32-bit `int`. -/
def int32Bytes (x : Int) : List Nat :=
  let u := (x % 4294967296).toNat
  [u % 256, u / 256 % 256, u / 65536 % 256, u / 16777216 % 256]

/-- The `int` held by an object whose first four bytes are `bs`. -/
def bytesInt32 (bs : List Nat) : Int :=
  let u : Int := (bs.getD 0 0 : Nat) + 256 * (bs.getD 1 0 : Nat) + 65536 * (bs.getD 2 0 : Nat)
    + 16777216 * (bs.getD 3 0 : Nat)
  if u ≥ 2147483648 then u - 4294967296 else u

/-- The object `x` after `read` stored the bytes `bs` at its start. -/
def storeBytes (x : Int) (bs : List Nat) : Int :=
  bytesInt32 (bs ++ (int32Bytes x).drop bs.length)

/-- What one call of `read` gives back: the return value and the bytes put
into the buffer. -/
structure ReadResult where
  ret : Int
  data : List Nat
  deriving DecidableEq, Repr

/-- One evaluation of `(read_bytes = read(fd, &x, sizeof(int))) <= 0`: `none`
when the loop goes on (`usleep(100)` and retry), the new value of `x` when the
loop is left. -/
def readAttempt (x : Int) (r : ReadResult) : Option Int :=
  if r.ret ≤ 0 then none else some (storeBytes x r.data)

/-- The loop `while ((read_bytes = read(fd, &x, sizeof(int))) <= 0) usleep(100);`
run against the successive results of `read`.  When the loop is left the
result holds `read_bytes`, the value of `x` and the results not consumed;
`none` when the loop is still retrying after the last result. -/
def readLoop (x : Int) : List ReadResult → Option (Int × Int × List ReadResult)
  | [] => none
  | r :: rs =>
    match readAttempt x r with
    | none => readLoop x rs
    | some v => some (r.ret, v, rs)

/-- A non-blocking `read(fd, buf, count)` on a FIFO holding the bytes `pipe`:
`-1` on a bad descriptor; on an empty FIFO `-1` (`EAGAIN`) while a writer has
it open and `0` otherwise; else up to `count` bytes leave the FIFO. -/
def pipeRead (fd : Int) (writerOpen : Bool) (pipe : List Nat) (count : Nat) :
    ReadResult × List Nat :=
  if fd < 0 then ({ ret := -1, data := [] }, pipe)
  else if pipe = [] then ({ ret := if writerOpen then -1 else 0, data := [] }, pipe)
  else ({ ret := (pipe.take count).length, data := pipe.take count }, pipe.drop count)

/-- A `write(fd, buf, n)` of the bytes `bytes` on a FIFO: nothing happens on a
bad descriptor, else the bytes are queued in one piece. -/
def pipeWrite (fd : Int) (pipe : List Nat) (bytes : List Nat) : List Nat :=
  if fd < 0 then pipe else pipe ++ bytes

/-! ## The three processes around the two FIFOs

Each process is a small-step machine whose steps are the system calls that
touch a FIFO; a schedule says which process moves next. -/

/-- Where the supervisor stands in lines 219-224. -/
inductive SupPc where
  | writeNum1 | writeNum2 | closeFd1 | monitoring
  deriving DecidableEq, Repr

/-- Where the producer worker stands in lines 164-186. -/
inductive ProdPc where
  | readA | readB | writeMax | exited
  deriving DecidableEq, Repr

/-- Where the consumer worker stands in lines 198-214. -/
inductive ConsPc where
  | readMax | report | exited
  deriving DecidableEq, Repr

/-- The descriptors returned by the four `open` calls on the FIFOs (negative
when the call failed). -/
structure Opens where
  /-- Line 219, `open(FIFO1, O_WRONLY)` in the supervisor. -/
  sup_fd1 : Int
  /-- Line 164, `open(FIFO1, O_RDONLY | O_NONBLOCK)` in the producer. -/
  prod_fd1 : Int
  /-- Line 179, `open(FIFO2, O_WRONLY)` in the producer. -/
  prod_fd2 : Int
  /-- Line 198, `open(FIFO2, O_RDONLY | O_NONBLOCK)` in the consumer. -/
  cons_fd2 : Int

/-- The FIFOs and the local state of the three processes. -/
structure Pipeline where
  fifo1 : List Nat
  fifo2 : List Nat
  sup : SupPc
  prod : ProdPc
  /-- The producer variable `a`. -/
  a : Int
  /-- The producer variable `b`. -/
  b : Int
  cons : ConsPc
  /-- The consumer variable `max`. -/
  max : Int
  /-- The records the consumer logged. -/
  log : List Msg
  /-- The argument of `exit` in the producer, once it has exited. -/
  prod_exit : Option Int
  /-- The argument of `exit` in the consumer, once it has exited. -/
  cons_exit : Option Int

/-- The state after the forks and the opens: both FIFOs empty, `a = 0`,
`b = 0` (line 167), the consumer variable `max` not yet assigned (`junk`). -/
def Pipeline.start (junk : Int) : Pipeline :=
  { fifo1 := [], fifo2 := [], sup := .writeNum1, prod := .readA, a := 0, b := 0,
    cons := .readMax, max := junk, log := [], prod_exit := none, cons_exit := none }

/-- The supervisor holds its end of FIFO1 open until `close(fd1)`. -/
def Pipeline.writer1Open (o : Opens) (s : Pipeline) : Bool :=
  decide (0 ≤ o.sup_fd1) && (s.sup != SupPc.monitoring)

/-- One step of the supervisor: lines 220, 221, 224. -/
def supervisorStep (o : Opens) (num1 num2 : Int) (s : Pipeline) : Pipeline :=
  match s.sup with
  | .writeNum1 =>
    { s with fifo1 := pipeWrite o.sup_fd1 s.fifo1 (int32Bytes num1), sup := .writeNum2 }
  | .writeNum2 =>
    { s with fifo1 := pipeWrite o.sup_fd1 s.fifo1 (int32Bytes num2), sup := .closeFd1 }
  | .closeFd1 => { s with sup := .monitoring }
  | .monitoring => s

/-- One step of the producer: one pass of the loop of line 169, one pass of
the loop of line 170, or lines 173-186. -/
def producerStep (o : Opens) (s : Pipeline) : Pipeline :=
  match s.prod with
  | .readA =>
    let r := pipeRead o.prod_fd1 (s.writer1Open o) s.fifo1 4
    match readAttempt s.a r.1 with
    | none => { s with fifo1 := r.2 }
    | some v => { s with fifo1 := r.2, a := v, prod := .readB }
  | .readB =>
    let r := pipeRead o.prod_fd1 (s.writer1Open o) s.fifo1 4
    match readAttempt s.b r.1 with
    | none => { s with fifo1 := r.2 }
    | some v => { s with fifo1 := r.2, b := v, prod := .writeMax }
  | .writeMax =>
    let max := if s.a > s.b then s.a else s.b
    { s with fifo2 := pipeWrite o.prod_fd2 s.fifo2 (int32Bytes max), prod := .exited,
             prod_exit := some 10 }
  | .exited => s

/-- One step of the consumer: one pass of the loop of line 203, or lines
206-214. -/
def consumerStep (o : Opens) (s : Pipeline) : Pipeline :=
  match s.cons with
  | .readMax =>
    let r := pipeRead o.cons_fd2 false s.fifo2 4
    match readAttempt s.max r.1 with
    | none => { s with fifo2 := r.2 }
    | some v => { s with fifo2 := r.2, max := v, cons := .report }
  | .report =>
    { s with log := s.log ++ [Msg.largerNumber s.max], cons := .exited, cons_exit := some 20 }
  | .exited => s

/-- The three processes. -/
inductive Proc where
  | supervisor | producer | consumer
  deriving DecidableEq, Repr

/-- The process named by the scheduler makes one step. -/
def step (o : Opens) (num1 num2 : Int) (s : Pipeline) : Proc → Pipeline
  | .supervisor => supervisorStep o num1 num2 s
  | .producer => producerStep o s
  | .consumer => consumerStep o s

/-- The state after the schedule `sched`, from the start state. -/
def run (o : Opens) (num1 num2 junk : Int) (sched : List Proc) : Pipeline :=
  sched.foldl (step o num1 num2) (Pipeline.start junk)

/-- The schedule in which each process runs to its end in turn. -/
def inOrder : List Proc :=
  [.supervisor, .supervisor, .supervisor, .producer, .producer, .producer,
   .consumer, .consumer]

/-- The range of a 32-bit signed `int`. -/
def isInt32 (x : Int) : Prop := -2147483648 ≤ x ∧ x ≤ 2147483647

instance (x : Int) : Decidable (isInt32 x) := by unfold isInt32; infer_instance

/-! ## The invariant of the pipeline

Bytes are neither lost nor made up: what was written into a FIFO is what was
read from it followed by what is still queued. -/

/-- The value the producer sends: `(a > b) ? a : b`. -/
def larger (a b : Int) : Int := if a > b then a else b

/-- The bytes the supervisor has written into FIFO1 so far. -/
def written1 (num1 num2 : Int) : SupPc → List Nat
  | .writeNum1 => []
  | .writeNum2 => int32Bytes num1
  | .closeFd1 => int32Bytes num1 ++ int32Bytes num2
  | .monitoring => int32Bytes num1 ++ int32Bytes num2

/-- The bytes the producer has taken out of FIFO1 so far. -/
def consumed1 (num1 num2 : Int) : ProdPc → List Nat
  | .readA => []
  | .readB => int32Bytes num1
  | .writeMax => int32Bytes num1 ++ int32Bytes num2
  | .exited => int32Bytes num1 ++ int32Bytes num2

/-- The bytes the producer has written into FIFO2 so far. -/
def written2 (num1 num2 : Int) : ProdPc → List Nat
  | .exited => int32Bytes (larger num1 num2)
  | _ => []

/-- The bytes the consumer has taken out of FIFO2 so far. -/
def consumed2 (num1 num2 : Int) : ConsPc → List Nat
  | .readMax => []
  | _ => int32Bytes (larger num1 num2)

/-- The invariant of the pipeline when all four opens succeeded. -/
structure PipelineInv (num1 num2 : Int) (s : Pipeline) : Prop where
  chan1 : written1 num1 num2 s.sup = consumed1 num1 num2 s.prod ++ s.fifo1
  haveA : s.prod ≠ ProdPc.readA → s.a = num1
  haveB : s.prod = ProdPc.writeMax → s.b = num2
  chan2 : written2 num1 num2 s.prod = consumed2 num1 num2 s.cons ++ s.fifo2
  haveMax : s.cons = ConsPc.report → s.max = larger num1 num2
  logged : s.log = if s.cons = ConsPc.exited then [Msg.largerNumber (larger num1 num2)] else []

/-! ## The two workers as the kernel sees them

The daemon has no children but the two workers forked at lines 157 and 191.
A worker ends once, stays a zombie until `waitpid` hands it to
`handle_sigchld`, and is never reported again.  Both forks are taken to have
succeeded and to have stored their results in `child_pids` before a worker
ends. -/

/-- The pids the two successful `fork` calls return: positive, and different
because both workers are alive at the second `fork`. -/
structure Workers where
  pid0 : Int
  pid1 : Int
  pos0 : 0 < pid0
  pos1 : 0 < pid1
  distinct : pid0 ≠ pid1

/-- The pid of the worker in slot `i`. -/
def Workers.pid (w : Workers) : Fin 2 → Int := pair w.pid0 w.pid1

/-- A signal number, 1 to 64. -/
structure Signal where
  num : Int
  valid : 1 ≤ num ∧ num ≤ 64

/-- How a worker ends: by `exit(code)` or killed by a signal, with or without
a core dump. -/
inductive Ending where
  | exited (code : Int)
  | killed (sig : Signal) (core : Bool)

/-- The status word `waitpid` reports for an ending. -/
def Ending.status : Ending → Int
  | .exited code => exitedStatus code
  | .killed sig core => signaledStatus sig.num + (if core then 128 else 0)

/-- A worker in the process table of the kernel. -/
inductive ChildState where
  | running
  | zombie (status : Int)
  | reaped
  deriving DecidableEq, Repr

/-- What happens around the daemon: a worker ends, or SIGCHLD is delivered and
`handle_sigchld` runs (`waitpid(-1, ...)` may hand out the zombie of slot 1
before the one of slot 0). -/
inductive Event where
  | ends (i : Fin 2) (how : Ending)
  | sigchld (slot1First : Bool)

/-- The process table entries of the two workers and the globals of the
daemon. -/
structure Host where
  child : Fin 2 → ChildState
  globals : Globals

/-- The state after both forks: both workers running, nothing reaped. -/
def Host.boot (w : Workers) : Host :=
  { child := fun _ => ChildState.running, globals := initialGlobals w.pid0 w.pid1 }

/-- The answer of `waitpid` for slot `i`, if its worker is a zombie. -/
def zombieOf (w : Workers) (child : Fin 2 → ChildState) (i : Fin 2) : List Terminated :=
  match child i with
  | .zombie status => [{ pid := w.pid i, status := status }]
  | _ => []

/-- The successive answers of `waitpid(-1, &status, WNOHANG)` during one run
of the handler: every zombie, once. -/
def zombies (w : Workers) (child : Fin 2 → ChildState) (slot1First : Bool) : List Terminated :=
  if slot1First then zombieOf w child 1 ++ zombieOf w child 0
  else zombieOf w child 0 ++ zombieOf w child 1

/-- The answers `waitpid` gives to the handler during one event. -/
def waitpidAnswers (w : Workers) (h : Host) : Event → List Terminated
  | .ends _ _ => []
  | .sigchld slot1First => zombies w h.child slot1First

/-- One event: a running worker becomes a zombie (a worker that has ended
does not end again); or `handle_sigchld` runs on the zombies, and every zombie
that `waitpid` handed to it leaves the process table. -/
def hostStep (w : Workers) (h : Host) : Event → Host
  | .ends i how =>
    match h.child i with
    | .running => { h with child := Function.update h.child i (ChildState.zombie how.status) }
    | _ => h
  | .sigchld slot1First =>
    { child := fun i =>
        match h.child i with
        | .zombie status =>
          if ({ pid := w.pid i, status := status } : Terminated) ∈
              (handle_sigchld h.globals (zombies w h.child slot1First)).pending then
            ChildState.zombie status
          else ChildState.reaped
        | c => c
      globals := (handle_sigchld h.globals (zombies w h.child slot1First)).globals }

/-- The state after the events, from a given state. -/
def hostRunFrom (w : Workers) (h : Host) (events : List Event) : Host :=
  events.foldl (hostStep w) h

/-- The state after the events, from the state after both forks. -/
def hostRun (w : Workers) (events : List Event) : Host :=
  hostRunFrom w (Host.boot w) events

/-- Every answer `waitpid` gives to `handle_sigchld` during the events, oldest
first: the termination events the handler processes. -/
def reapedBy (w : Workers) : Host → List Event → List Terminated
  | _, [] => []
  | h, e :: es => waitpidAnswers w h e ++ reapedBy w (hostStep w h e) es

/-- What the invariant of the process table says about the answers `waitpid`
has given so far. -/
structure HostInv (w : Workers) (h : Host) (answers : List Terminated) : Prop where
  globals_eq : h.globals = reapAll (initialGlobals w.pid0 w.pid1) answers
  reaped_iff : ∀ i, h.child i = ChildState.reaped ↔ w.pid i ∈ answers.map Terminated.pid
  nodup : (answers.map Terminated.pid).Nodup
  valid : ∀ t ∈ answers, 0 < t.pid ∧ terminatedStatus t.status
  zombie_valid : ∀ i status, h.child i = ChildState.zombie status → terminatedStatus status

/-! # Theorems -/

/-! ## Lemmas on the wait-status decoding -/

theorem WEXITSTATUS_range (s : Int) : 0 ≤ WEXITSTATUS s ∧ WEXITSTATUS s ≤ 255 := by
  unfold WEXITSTATUS; omega

theorem WIFSIGNALED_iff (s : Int) : WIFSIGNALED s = true ↔ 1 ≤ s % 128 ∧ s % 128 ≤ 126 := by
  unfold WIFSIGNALED toSignedChar; simp only [decide_eq_true_eq]; omega

theorem WIFEXITED_iff (s : Int) : WIFEXITED s = true ↔ s % 128 = 0 := by
  unfold WIFEXITED WTERMSIG; simp

theorem decodeStatus_ne_sentinel (pid s : Int) (h : terminatedStatus s) :
    (decodeStatus pid s).1 ≠ -1 := by
  unfold decodeStatus
  split
  · have := WEXITSTATUS_range s; simp only; omega
  · split
    · rename_i h2; have := (WIFSIGNALED_iff s).1 h2; simp only [WTERMSIG]; omega
    · rcases h with h | h <;> simp_all

/-! ## Lemmas on the handler -/

@[simp]
theorem reapOne_pids (g : Globals) (t : Terminated) :
    (reapOne g t).1.child_pids = g.child_pids := rfl

@[simp]
theorem reapOne_count (g : Globals) (t : Terminated) :
    (reapOne g t).1.child_exit_count = g.child_exit_count + 1 := rfl

theorem reapOne_status (g : Globals) (t : Terminated) :
    (reapOne g t).1.child_exit_status =
      storeStatus g.child_pids g.child_exit_status t.pid (decodeStatus t.pid t.status).1 := rfl

theorem handle_sigchld_positive (g : Globals) (children : List Terminated)
    (hpos : ∀ t ∈ children, 0 < t.pid) :
    (handle_sigchld g children).globals = reapAll g children ∧
      (handle_sigchld g children).pending = [] ∧
      (handle_sigchld g children).logged.length = children.length := by
  induction children generalizing g with
  | nil => simp [handle_sigchld, reapAll]
  | cons t rest ih =>
    have ht : t.pid > 0 := hpos t (List.mem_cons_self _ _)
    have hrest := ih (reapOne g t).1 (fun u hu => hpos u (List.mem_cons_of_mem _ hu))
    simp only [handle_sigchld, ht, if_true, reapAll, List.foldl_cons, List.length_cons]
    simp only [reapAll] at hrest
    exact ⟨hrest.1, hrest.2.1, by rw [hrest.2.2]⟩

theorem reapAll_append (g : Globals) (xs ys : List Terminated) :
    reapAll g (xs ++ ys) = reapAll (reapAll g xs) ys := by
  simp [reapAll, List.foldl_append]

@[simp]
theorem reapAll_pids (g : Globals) (children : List Terminated) :
    (reapAll g children).child_pids = g.child_pids := by
  induction children generalizing g with
  | nil => rfl
  | cons t rest ih => simp only [reapAll, List.foldl_cons] at ih ⊢; rw [ih]; rfl

theorem reapAll_count (g : Globals) (children : List Terminated) :
    (reapAll g children).child_exit_count = g.child_exit_count + children.length := by
  induction children generalizing g with
  | nil => simp [reapAll]
  | cons t rest ih =>
    simp only [reapAll, List.foldl_cons, List.length_cons] at ih ⊢
    rw [ih]; simp only [reapOne_count]; push_cast; ring

theorem storeStatus_other (p st : Fin 2 → Int) (pid v : Int) (i : Fin 2)
    (h : slotOf p pid ≠ some i) : storeStatus p st pid v i = st i := by
  unfold storeStatus
  unfold slotOf at h
  by_cases h0 : p 0 = pid
  · simp only [h0, if_true] at h ⊢
    have : i ≠ 0 := fun e => h (by rw [e])
    simp [Function.update, this]
  · by_cases h1 : p 1 = pid
    · simp only [h0, h1, if_true, if_false] at h ⊢
      have : i ≠ 1 := fun e => h (by rw [e])
      simp [Function.update, this]
    · simp [h0, h1]

theorem storeStatus_same (p st : Fin 2 → Int) (pid v : Int) (i : Fin 2)
    (h : slotOf p pid = some i) : storeStatus p st pid v i = v := by
  unfold storeStatus
  unfold slotOf at h
  by_cases h0 : p 0 = pid
  · simp only [h0, if_true, Option.some.injEq] at h ⊢
    subst h; simp
  · by_cases h1 : p 1 = pid
    · simp only [h0, h1, if_true, if_false, Option.some.injEq] at h ⊢
      subst h; simp
    · simp [h0, h1] at h

/-- A slot keeps its value across children that are attributed to other slots. -/
theorem reapAll_status_untouched (g : Globals) (children : List Terminated) (i : Fin 2)
    (h : ∀ t ∈ children, slotOf g.child_pids t.pid ≠ some i) :
    (reapAll g children).child_exit_status i = g.child_exit_status i := by
  induction children generalizing g with
  | nil => rfl
  | cons t rest ih =>
    have h1 := ih (reapOne g t).1 (fun u hu => by
      simpa using h u (List.mem_cons_of_mem _ hu))
    simp only [reapAll, List.foldl_cons] at h1 ⊢
    rw [h1, reapOne_status]
    exact storeStatus_other _ _ _ _ _ (h t (List.mem_cons_self _ _))

/-- A slot whose value changed was written for one of the children. -/
theorem reapAll_status_changed (g : Globals) (children : List Terminated) (i : Fin 2)
    (h : (reapAll g children).child_exit_status i ≠ g.child_exit_status i) :
    ∃ t ∈ children, slotOf g.child_pids t.pid = some i := by
  by_contra hc
  push_neg at hc
  exact h (reapAll_status_untouched g children i hc)

theorem slotOf_pid (p : Fin 2 → Int) (pid : Int) (i : Fin 2) (h : slotOf p pid = some i) :
    p i = pid := by
  unfold slotOf at h
  by_cases h0 : p 0 = pid
  · simp only [h0, if_true, Option.some.injEq] at h; subst h; exact h0
  · by_cases h1 : p 1 = pid
    · simp only [h0, h1, if_true, if_false, Option.some.injEq] at h; subst h; exact h1
    · simp [h0, h1] at h

theorem filter_pid_length_le_one (children : List Terminated) (c : Int)
    (hnodup : (children.map Terminated.pid).Nodup) :
    (children.filter (fun t => decide (t.pid = c))).length ≤ 1 := by
  induction children with
  | nil => simp
  | cons t rest ih =>
    simp only [List.map_cons, List.nodup_cons] at hnodup
    by_cases htc : t.pid = c
    · have hnone : rest.filter (fun u => decide (u.pid = c)) = [] := by
        rw [List.filter_eq_nil_iff]
        intro u hu
        simp only [decide_eq_true_eq]
        intro huc
        exact hnodup.1 (by rw [htc, ← huc]; exact List.mem_map_of_mem _ hu)
      simp [List.filter_cons, htc, hnone]
    · simp only [List.filter_cons, htc, decide_False]
      exact ih hnodup.2

/-- A slot for which a child was reaped holds a non-sentinel value, provided
every status is a normal exit or a termination by signal. -/
theorem reapAll_status_recorded (children : List Terminated) (i : Fin 2) :
    ∀ g : Globals, (∀ t ∈ children, terminatedStatus t.status) →
      (∃ t ∈ children, slotOf g.child_pids t.pid = some i) →
      (reapAll g children).child_exit_status i ≠ -1 := by
  induction children with
  | nil => intro g _ hex; obtain ⟨t, ht, _⟩ := hex; exact absurd ht (List.not_mem_nil _)
  | cons t rest ih =>
    intro g hvalid hex
    have key : reapAll g (t :: rest) = reapAll (reapOne g t).1 rest := by simp [reapAll]
    rw [key]
    by_cases hrest : ∃ u ∈ rest, slotOf g.child_pids u.pid = some i
    · exact ih (reapOne g t).1 (fun u hu => hvalid u (List.mem_cons_of_mem _ hu))
        (by simpa using hrest)
    · have ht : slotOf g.child_pids t.pid = some i := by
        obtain ⟨u, hu, hslot⟩ := hex
        rcases List.mem_cons.1 hu with h | h
        · rw [← h]; exact hslot
        · exact absurd ⟨u, h, hslot⟩ hrest
      push_neg at hrest
      rw [reapAll_status_untouched (reapOne g t).1 rest i (by simpa using hrest),
        reapOne_status, storeStatus_same _ _ _ _ _ ht]
      exact decodeStatus_ne_sentinel _ _ (hvalid t (List.mem_cons_self _ _))

theorem slotOf_pair (p0 p1 pid : Int) (i : Fin 2) (hne : p0 ≠ p1) :
    slotOf (pair p0 p1) pid = some i ↔ pair p0 p1 i = pid := by
  constructor
  · exact slotOf_pid _ _ _
  · intro h
    unfold slotOf
    fin_cases i
    · have : pair p0 p1 0 = pid := h
      simp [this]
    · have h1 : pair p0 p1 1 = pid := h
      have h0 : pair p0 p1 0 ≠ pid := fun e => hne (e.trans h1.symm)
      simp [h0, h1]

/-- After reaping from the initial state, a slot holds the sentinel exactly
when the pid of its worker was not among the reaped children. -/
theorem sentinel_iff_not_reaped (p0 p1 : Int) (children : List Terminated) (i : Fin 2)
    (hne : p0 ≠ p1) (hvalid : ∀ t ∈ children, terminatedStatus t.status) :
    (reapAll (initialGlobals p0 p1) children).child_exit_status i = -1 ↔
      pair p0 p1 i ∉ children.map Terminated.pid := by
  have hinit : (initialGlobals p0 p1).child_exit_status i = -1 := by fin_cases i <;> rfl
  constructor
  · intro hs hmem
    obtain ⟨t, ht, hpid⟩ := List.mem_map.1 hmem
    exact reapAll_status_recorded children i (initialGlobals p0 p1) hvalid
      ⟨t, ht, (slotOf_pair p0 p1 t.pid i hne).2 hpid.symm⟩ hs
  · intro hnot
    rw [reapAll_status_untouched _ _ _ ?_, hinit]
    intro t ht hslot
    exact hnot (List.mem_map.2 ⟨t, ht, ((slotOf_pair p0 p1 t.pid i hne).1 hslot).symm⟩)

/-! ## Lemmas on pipes and the read loop -/

theorem int32Bytes_length (x : Int) : (int32Bytes x).length = 4 := rfl

theorem bytesInt32_int32Bytes (x : Int) (hx : isInt32 x) : bytesInt32 (int32Bytes x) = x := by
  unfold isInt32 at hx
  unfold bytesInt32 int32Bytes
  simp only [List.getD_cons_zero, List.getD_cons_succ]
  have h : ((x % 4294967296).toNat : Int) = x % 4294967296 :=
    Int.toNat_of_nonneg (Int.emod_nonneg _ (by norm_num))
  generalize (x % 4294967296).toNat = u at h
  push_cast
  split <;> omega

theorem storeBytes_full (x v : Int) (hv : isInt32 v) : storeBytes x (int32Bytes v) = v := by
  unfold storeBytes
  rw [int32Bytes_length]
  have : (int32Bytes x).drop 4 = [] := rfl
  rw [this, List.append_nil, bytesInt32_int32Bytes v hv]

theorem pipeRead_value (fd : Int) (w : Bool) (v : Int) (rest : List Nat) (hfd : 0 ≤ fd) :
    pipeRead fd w (int32Bytes v ++ rest) 4 = ({ ret := 4, data := int32Bytes v }, rest) := by
  have h1 : ¬ fd < 0 := not_lt.2 hfd
  have h2 : int32Bytes v ++ rest ≠ [] := by simp [int32Bytes]
  have h3 : (int32Bytes v ++ rest).take 4 = int32Bytes v := by simp [int32Bytes]
  have h4 : (int32Bytes v ++ rest).drop 4 = rest := by simp [int32Bytes]
  simp only [pipeRead, h1, h2, if_false, h3, h4, int32Bytes_length]
  rfl

theorem readAttempt_value (fd : Int) (w : Bool) (x v : Int) (rest : List Nat) (hfd : 0 ≤ fd)
    (hv : isInt32 v) :
    readAttempt x (pipeRead fd w (int32Bytes v ++ rest) 4).1 = some v ∧
      (pipeRead fd w (int32Bytes v ++ rest) 4).2 = rest := by
  rw [pipeRead_value fd w v rest hfd]
  simp [readAttempt, storeBytes_full x v hv]

theorem readAttempt_empty (fd : Int) (w : Bool) (x : Int) :
    readAttempt x (pipeRead fd w [] 4).1 = none ∧ (pipeRead fd w [] 4).2 = [] := by
  unfold pipeRead readAttempt
  by_cases h : fd < 0
  · simp [h]
  · cases w <;> simp [h]

theorem readAttempt_bad_fd (fd : Int) (w : Bool) (x : Int) (pipe : List Nat) (hfd : fd < 0) :
    readAttempt x (pipeRead fd w pipe 4).1 = none ∧ (pipeRead fd w pipe 4).2 = pipe := by
  simp [pipeRead, readAttempt, hfd]

/-! ## Lemmas on the producer -/

/-- The states in which the producer sits in its first read loop and nothing
has reached FIFO2 or the log. -/
theorem step_stuck (o : Opens) (num1 num2 : Int) (s : Pipeline) (q : Proc)
    (hfd : o.prod_fd1 < 0)
    (h : s.prod = ProdPc.readA ∧ s.prod_exit = none ∧ s.fifo2 = [] ∧
      s.cons = ConsPc.readMax ∧ s.log = []) :
    (step o num1 num2 s q).prod = ProdPc.readA ∧ (step o num1 num2 s q).prod_exit = none ∧
      (step o num1 num2 s q).fifo2 = [] ∧ (step o num1 num2 s q).cons = ConsPc.readMax ∧
      (step o num1 num2 s q).log = [] := by
  obtain ⟨h1, h2, h3, h4, h5⟩ := h
  cases q
  · simp only [step, supervisorStep]
    split <;> exact ⟨h1, h2, h3, h4, h5⟩
  · simp only [step, producerStep, h1,
      (readAttempt_bad_fd o.prod_fd1 (s.writer1Open o) s.a s.fifo1 hfd).1]
    simp [h1, h2, h3, h4, h5]
  · simp only [step, consumerStep, h4, h3, (readAttempt_empty o.cons_fd2 false s.max).1,
      (readAttempt_empty o.cons_fd2 false s.max).2]
    simp [h1, h2, h4, h5]

theorem foldl_step_stuck (o : Opens) (num1 num2 : Int) (sched : List Proc)
    (hfd : o.prod_fd1 < 0) :
    ∀ s : Pipeline,
      (s.prod = ProdPc.readA ∧ s.prod_exit = none ∧ s.fifo2 = [] ∧
        s.cons = ConsPc.readMax ∧ s.log = []) →
      (sched.foldl (step o num1 num2) s).prod = ProdPc.readA ∧
        (sched.foldl (step o num1 num2) s).prod_exit = none ∧
        (sched.foldl (step o num1 num2) s).fifo2 = [] ∧
        (sched.foldl (step o num1 num2) s).cons = ConsPc.readMax ∧
        (sched.foldl (step o num1 num2) s).log = [] := by
  induction sched with
  | nil => intro s h; exact h
  | cons q qs ih => intro s h; exact ih _ (step_stuck o num1 num2 s q hfd h)

/-- The only argument the producer ever passes to `exit` is 10. -/
theorem step_exit_code (o : Opens) (num1 num2 : Int) (s : Pipeline) (q : Proc)
    (h : s.prod_exit = none ∨ s.prod_exit = some 10) :
    (step o num1 num2 s q).prod_exit = none ∨ (step o num1 num2 s q).prod_exit = some 10 := by
  cases q
  · simp only [step, supervisorStep]
    split <;> exact h
  · simp only [step, producerStep]
    split
    · split <;> exact h
    · split <;> exact h
    · exact Or.inr rfl
    · exact h
  · simp only [step, consumerStep]
    split
    · split <;> exact h
    · exact h
    · exact h

theorem foldl_step_exit_code (o : Opens) (num1 num2 : Int) (sched : List Proc) :
    ∀ s : Pipeline, (s.prod_exit = none ∨ s.prod_exit = some 10) →
      (sched.foldl (step o num1 num2) s).prod_exit = none ∨
        (sched.foldl (step o num1 num2) s).prod_exit = some 10 := by
  induction sched with
  | nil => intro s h; exact h
  | cons q qs ih => intro s h; exact ih _ (step_exit_code o num1 num2 s q h)

/-! ## The invariant is kept by every step -/

theorem int32Bytes_ne_nil (x : Int) : int32Bytes x ≠ [] := by simp [int32Bytes]

theorem isInt32_larger (a b : Int) (ha : isInt32 a) (hb : isInt32 b) : isInt32 (larger a b) := by
  unfold larger; split <;> assumption

theorem larger_eq_max (a b : Int) : larger a b = max a b := by
  unfold larger
  rcases le_total a b with h | h
  · rw [max_eq_right h, if_neg (not_lt.2 h)]
  · rcases eq_or_lt_of_le h with e | e
    · rw [e, max_self]; simp
    · rw [max_eq_left h, if_pos e]

theorem supervisorStep_inv (o : Opens) (num1 num2 : Int) (s : Pipeline) (hfd : 0 ≤ o.sup_fd1)
    (h : PipelineInv num1 num2 s) : PipelineInv num1 num2 (supervisorStep o num1 num2 s) := by
  obtain ⟨c1, hA, hB, c2, hM, hL⟩ := h
  have hw : ∀ p bs, pipeWrite o.sup_fd1 p bs = p ++ bs := fun p bs => by
    simp [pipeWrite, not_lt.2 hfd]
  unfold supervisorStep
  split
  · rename_i hs
    rw [hs] at c1
    refine ⟨?_, hA, hB, c2, hM, hL⟩
    simp only [hw, written1, ← List.append_assoc, ← c1, List.nil_append]
  · rename_i hs
    rw [hs] at c1
    refine ⟨?_, hA, hB, c2, hM, hL⟩
    simp only [hw, written1, ← List.append_assoc, ← c1]
  · rename_i hs
    rw [hs] at c1
    exact ⟨c1, hA, hB, c2, hM, hL⟩
  · exact ⟨c1, hA, hB, c2, hM, hL⟩

theorem producerStep_inv (o : Opens) (num1 num2 : Int) (s : Pipeline)
    (hfd1 : 0 ≤ o.prod_fd1) (hfd2 : 0 ≤ o.prod_fd2) (h1 : isInt32 num1) (h2 : isInt32 num2)
    (h : PipelineInv num1 num2 s) : PipelineInv num1 num2 (producerStep o s) := by
  obtain ⟨c1, hA, hB, c2, hM, hL⟩ := h
  have hw : ∀ p bs, pipeWrite o.prod_fd2 p bs = p ++ bs := fun p bs => by
    simp [pipeWrite, not_lt.2 hfd2]
  cases hp : s.prod with
  | readA =>
    rw [hp] at c1 c2
    simp only [consumed1, List.nil_append] at c1
    cases hs : s.sup with
    | writeNum1 =>
      rw [hs] at c1
      simp only [written1] at c1
      have e := readAttempt_empty o.prod_fd1 (s.writer1Open o) s.a
      simp only [producerStep, hp, ← c1, e.1, e.2]
      exact ⟨by simp [hs, hp, written1, consumed1], by simp [hp], by simp [hp],
        by simpa [hp] using c2, hM, hL⟩
    | writeNum2 =>
      rw [hs] at c1
      simp only [written1] at c1
      have e := readAttempt_value o.prod_fd1 (s.writer1Open o) s.a num1 [] hfd1 h1
      rw [List.append_nil] at e
      simp only [producerStep, hp, ← c1, e.1, e.2]
      exact ⟨by simp [hs, written1, consumed1], by simp, by simp,
        by simpa [written2] using c2, hM, hL⟩
    | closeFd1 =>
      rw [hs] at c1
      simp only [written1] at c1
      have e := readAttempt_value o.prod_fd1 (s.writer1Open o) s.a num1 (int32Bytes num2) hfd1 h1
      simp only [producerStep, hp, ← c1, e.1, e.2]
      exact ⟨by simp [hs, written1, consumed1], by simp, by simp,
        by simpa [written2] using c2, hM, hL⟩
    | monitoring =>
      rw [hs] at c1
      simp only [written1] at c1
      have e := readAttempt_value o.prod_fd1 (s.writer1Open o) s.a num1 (int32Bytes num2) hfd1 h1
      simp only [producerStep, hp, ← c1, e.1, e.2]
      exact ⟨by simp [hs, written1, consumed1], by simp, by simp,
        by simpa [written2] using c2, hM, hL⟩
  | readB =>
    rw [hp] at c1 c2
    have hA1 : s.a = num1 := hA (by rw [hp]; decide)
    simp only [consumed1] at c1
    cases hs : s.sup with
    | writeNum1 =>
      rw [hs] at c1
      simp only [written1] at c1
      exact absurd (List.append_eq_nil.1 c1.symm).1 (int32Bytes_ne_nil _)
    | writeNum2 =>
      rw [hs] at c1
      simp only [written1] at c1
      have hf : s.fifo1 = [] := by simpa using c1
      have e := readAttempt_empty o.prod_fd1 (s.writer1Open o) s.b
      simp only [producerStep, hp, hf, e.1, e.2]
      exact ⟨by simp [hs, hp, written1, consumed1], by simp [hp, hA1], by simp [hp],
        by simpa [hp] using c2, hM, hL⟩
    | closeFd1 =>
      rw [hs] at c1
      simp only [written1] at c1
      have hf : s.fifo1 = int32Bytes num2 := (List.append_cancel_left c1).symm
      have e := readAttempt_value o.prod_fd1 (s.writer1Open o) s.b num2 [] hfd1 h2
      rw [List.append_nil] at e
      simp only [producerStep, hp, hf, e.1, e.2]
      exact ⟨by simp [hs, written1, consumed1], by simp [hA1], by simp,
        by simpa [written2] using c2, hM, hL⟩
    | monitoring =>
      rw [hs] at c1
      simp only [written1] at c1
      have hf : s.fifo1 = int32Bytes num2 := (List.append_cancel_left c1).symm
      have e := readAttempt_value o.prod_fd1 (s.writer1Open o) s.b num2 [] hfd1 h2
      rw [List.append_nil] at e
      simp only [producerStep, hp, hf, e.1, e.2]
      exact ⟨by simp [hs, written1, consumed1], by simp [hA1], by simp,
        by simpa [written2] using c2, hM, hL⟩
  | writeMax =>
    rw [hp] at c1 c2
    have hA1 : s.a = num1 := hA (by rw [hp]; decide)
    have hB1 : s.b = num2 := hB hp
    simp only [written2] at c2
    have hf2 : s.fifo2 = [] := (List.append_eq_nil.1 c2.symm).2
    have hc : consumed2 num1 num2 s.cons = [] := (List.append_eq_nil.1 c2.symm).1
    simp only [producerStep, hp, hw, hA1, hB1, hf2, List.nil_append]
    refine ⟨by simpa [consumed1] using c1, by simp [hA1], by simp, ?_, hM, hL⟩
    simp [written2, larger, hc]
  | exited =>
    have : producerStep o s = s := by simp [producerStep, hp]
    rw [this]
    exact ⟨c1, hA, hB, c2, hM, hL⟩

theorem consumerStep_inv (o : Opens) (num1 num2 : Int) (s : Pipeline)
    (hfd : 0 ≤ o.cons_fd2) (h1 : isInt32 num1) (h2 : isInt32 num2)
    (h : PipelineInv num1 num2 s) : PipelineInv num1 num2 (consumerStep o s) := by
  obtain ⟨c1, hA, hB, c2, hM, hL⟩ := h
  have hl := isInt32_larger num1 num2 h1 h2
  cases hc : s.cons with
  | readMax =>
    rw [hc] at c2 hL
    simp only [consumed2, List.nil_append] at c2
    by_cases hp : s.prod = ProdPc.exited
    · rw [hp] at c2
      simp only [written2] at c2
      have e := readAttempt_value o.cons_fd2 false s.max (larger num1 num2) [] hfd hl
      rw [List.append_nil] at e
      simp only [consumerStep, hc, ← c2, e.1, e.2]
      exact ⟨c1, hA, hB, by simp [hp, written2, consumed2], by simp, by simpa using hL⟩
    · have hw : written2 num1 num2 s.prod = [] := by
        cases hq : s.prod <;> simp_all [written2]
      rw [hw] at c2
      have e := readAttempt_empty o.cons_fd2 false s.max
      simp only [consumerStep, hc, ← c2, e.1, e.2]
      exact ⟨c1, hA, hB, by simp [hc, hw, consumed2], by simp [hc], by simpa [hc] using hL⟩
  | report =>
    rw [hc] at c2 hL
    have hm : s.max = larger num1 num2 := hM hc
    simp only [consumerStep, hc]
    refine ⟨c1, hA, hB, by simpa [consumed2] using c2, by simp, ?_⟩
    simp only [if_true]
    rw [hL, hm]; simp
  | exited =>
    have : consumerStep o s = s := by simp [consumerStep, hc]
    rw [this]
    exact ⟨c1, hA, hB, c2, hM, hL⟩

theorem run_inv (o : Opens) (num1 num2 : Int) (sched : List Proc)
    (hopen : 0 ≤ o.sup_fd1 ∧ 0 ≤ o.prod_fd1 ∧ 0 ≤ o.prod_fd2 ∧ 0 ≤ o.cons_fd2)
    (h1 : isInt32 num1) (h2 : isInt32 num2) :
    ∀ s : Pipeline, PipelineInv num1 num2 s →
      PipelineInv num1 num2 (sched.foldl (step o num1 num2) s) := by
  induction sched with
  | nil => intro s h; exact h
  | cons q qs ih =>
    intro s h
    apply ih
    cases q
    · exact supervisorStep_inv o num1 num2 s hopen.1 h
    · exact producerStep_inv o num1 num2 s hopen.2.1 hopen.2.2.1 h1 h2 h
    · exact consumerStep_inv o num1 num2 s hopen.2.2.2 h1 h2 h

theorem start_inv (num1 num2 junk : Int) : PipelineInv num1 num2 (Pipeline.start junk) :=
  ⟨rfl, fun h => absurd rfl h, fun h => by simp [Pipeline.start] at h, rfl,
    fun h => by simp [Pipeline.start] at h, rfl⟩

theorem pipeRead_single (fd : Int) (w : Bool) (v : Int) (hfd : 0 ≤ fd) :
    pipeRead fd w (int32Bytes v) 4 = ({ ret := 4, data := int32Bytes v }, []) := by
  have := pipeRead_value fd w v [] hfd
  rwa [List.append_nil] at this

theorem readAttempt_four (x v : Int) (hv : isInt32 v) :
    readAttempt x { ret := 4, data := int32Bytes v } = some v := by
  simp [readAttempt, storeBytes_full x v hv]

/-! ## Progress: no interleaving blocks the pipeline -/

/-- The exit codes follow the program counters: 10 once the producer has
exited, 20 once the consumer has exited. -/
theorem step_exit_codes (o : Opens) (num1 num2 : Int) (s : Pipeline) (q : Proc)
    (h : (s.prod_exit = if s.prod = ProdPc.exited then some 10 else none) ∧
      (s.cons_exit = if s.cons = ConsPc.exited then some 20 else none)) :
    ((step o num1 num2 s q).prod_exit =
        if (step o num1 num2 s q).prod = ProdPc.exited then some 10 else none) ∧
      ((step o num1 num2 s q).cons_exit =
        if (step o num1 num2 s q).cons = ConsPc.exited then some 20 else none) := by
  obtain ⟨hp, hc⟩ := h
  cases q
  · cases hs : s.sup <;> simp only [step, supervisorStep, hs] <;> exact ⟨hp, hc⟩
  · cases hq : s.prod with
    | readA =>
      rw [hq] at hp
      cases hr : readAttempt s.a (pipeRead o.prod_fd1 (s.writer1Open o) s.fifo1 4).1 <;>
        simp_all [step, producerStep]
    | readB =>
      rw [hq] at hp
      cases hr : readAttempt s.b (pipeRead o.prod_fd1 (s.writer1Open o) s.fifo1 4).1 <;>
        simp_all [step, producerStep]
    | writeMax => simp_all [step, producerStep]
    | exited => simp_all [step, producerStep]
  · cases hq : s.cons with
    | readMax =>
      rw [hq] at hc
      cases hr : readAttempt s.max (pipeRead o.cons_fd2 false s.fifo2 4).1 <;>
        simp_all [step, consumerStep]
    | report => simp_all [step, consumerStep]
    | exited => simp_all [step, consumerStep]

theorem foldl_step_exit_codes (o : Opens) (num1 num2 : Int) (sched : List Proc) :
    ∀ s : Pipeline,
      ((s.prod_exit = if s.prod = ProdPc.exited then some 10 else none) ∧
        (s.cons_exit = if s.cons = ConsPc.exited then some 20 else none)) →
      (((sched.foldl (step o num1 num2) s).prod_exit =
          if (sched.foldl (step o num1 num2) s).prod = ProdPc.exited then some 10 else none) ∧
        ((sched.foldl (step o num1 num2) s).cons_exit =
          if (sched.foldl (step o num1 num2) s).cons = ConsPc.exited then some 20 else none)) := by
  induction sched with
  | nil => intro s h; exact h
  | cons q qs ih => intro s h; exact ih _ (step_exit_codes o num1 num2 s q h)

/-- Three steps bring the supervisor past `close(fd1)`, wherever it stood. -/
theorem supervisor_done (o : Opens) (num1 num2 : Int) (s : Pipeline) :
    ([Proc.supervisor, .supervisor, .supervisor].foldl (step o num1 num2) s).sup =
      SupPc.monitoring := by
  cases hs : s.sup <;> simp [step, supervisorStep, hs]

/-- While the supervisor has written both numbers, a step of the producer
moves it to its next position. -/
theorem producerStep_progress (o : Opens) (num1 num2 : Int) (s : Pipeline)
    (hfd1 : 0 ≤ o.prod_fd1) (h1 : isInt32 num1) (h2 : isInt32 num2)
    (h : PipelineInv num1 num2 s) (hs : s.sup = SupPc.monitoring) :
    (producerStep o s).sup = SupPc.monitoring ∧
      (producerStep o s).prod =
        match s.prod with
        | .readA => ProdPc.readB
        | .readB => ProdPc.writeMax
        | _ => ProdPc.exited := by
  have c1 := h.chan1
  rw [hs] at c1
  simp only [written1] at c1
  cases hp : s.prod with
  | readA =>
    rw [hp] at c1
    simp only [consumed1, List.nil_append] at c1
    simp only [producerStep, hp, ← c1, pipeRead_value _ _ _ _ hfd1, readAttempt_four _ _ h1]
    exact ⟨hs, trivial⟩
  | readB =>
    rw [hp] at c1
    simp only [consumed1] at c1
    have hf : s.fifo1 = int32Bytes num2 := (List.append_cancel_left c1).symm
    simp only [producerStep, hp, hf, pipeRead_single _ _ _ hfd1, readAttempt_four _ _ h2]
    exact ⟨hs, trivial⟩
  | writeMax =>
    simp only [producerStep, hp]
    exact ⟨hs, trivial⟩
  | exited =>
    simp only [producerStep, hp]
    exact ⟨hs, trivial⟩

/-- Once the producer has exited, a step of the consumer moves it to its next
position. -/
theorem consumerStep_progress (o : Opens) (num1 num2 : Int) (s : Pipeline)
    (hfd : 0 ≤ o.cons_fd2) (h1 : isInt32 num1) (h2 : isInt32 num2)
    (h : PipelineInv num1 num2 s) (hp : s.prod = ProdPc.exited) :
    (consumerStep o s).prod = ProdPc.exited ∧
      (consumerStep o s).cons =
        match s.cons with
        | .readMax => ConsPc.report
        | _ => ConsPc.exited := by
  have c2 := h.chan2
  rw [hp] at c2
  simp only [written2] at c2
  have hl := isInt32_larger num1 num2 h1 h2
  cases hc : s.cons with
  | readMax =>
    rw [hc] at c2
    simp only [consumed2, List.nil_append] at c2
    simp only [consumerStep, hc, ← c2, pipeRead_single _ _ _ hfd, readAttempt_four _ _ hl]
    exact ⟨hp, trivial⟩
  | report =>
    simp only [consumerStep, hc]
    exact ⟨hp, trivial⟩
  | exited =>
    simp only [consumerStep, hc]
    exact ⟨hp, trivial⟩

/-- From every state that satisfies the invariant, letting the three processes
run to their ends in turn finishes both workers. -/
theorem inOrder_finishes (o : Opens) (num1 num2 : Int) (s : Pipeline)
    (hopen : 0 ≤ o.sup_fd1 ∧ 0 ≤ o.prod_fd1 ∧ 0 ≤ o.prod_fd2 ∧ 0 ≤ o.cons_fd2)
    (h1 : isInt32 num1) (h2 : isInt32 num2) (h : PipelineInv num1 num2 s) :
    (inOrder.foldl (step o num1 num2) s).prod = ProdPc.exited ∧
      (inOrder.foldl (step o num1 num2) s).cons = ConsPc.exited := by
  have hsplit : inOrder = [Proc.supervisor, .supervisor, .supervisor] ++
      ([.producer] ++ ([.producer] ++ ([.producer] ++ ([.consumer] ++ [.consumer])))) := rfl
  rw [hsplit]
  simp only [List.foldl_append]
  generalize hs0 : [Proc.supervisor, .supervisor, .supervisor].foldl (step o num1 num2) s = s0
  have i0 : PipelineInv num1 num2 s0 := hs0 ▸ run_inv o num1 num2 _ hopen h1 h2 s h
  have m0 : s0.sup = SupPc.monitoring := hs0 ▸ supervisor_done o num1 num2 s
  -- three producer steps
  have q1 := producerStep_progress o num1 num2 s0 hopen.2.1 h1 h2 i0 m0
  have i1 := producerStep_inv o num1 num2 s0 hopen.2.1 hopen.2.2.1 h1 h2 i0
  have q2 := producerStep_progress o num1 num2 _ hopen.2.1 h1 h2 i1 q1.1
  have i2 := producerStep_inv o num1 num2 _ hopen.2.1 hopen.2.2.1 h1 h2 i1
  have q3 := producerStep_progress o num1 num2 _ hopen.2.1 h1 h2 i2 q2.1
  have i3 := producerStep_inv o num1 num2 _ hopen.2.1 hopen.2.2.1 h1 h2 i2
  have e3 : (producerStep o (producerStep o (producerStep o s0))).prod = ProdPc.exited := by
    rw [q3.2, q2.2, q1.2]
    cases s0.prod <;> rfl
  -- two consumer steps
  have r1 := consumerStep_progress o num1 num2 _ hopen.2.2.2 h1 h2 i3 e3
  have j1 := consumerStep_inv o num1 num2 _ hopen.2.2.2 h1 h2 i3
  have r2 := consumerStep_progress o num1 num2 _ hopen.2.2.2 h1 h2 j1 r1.1
  simp only [List.foldl_cons, List.foldl_nil, step]
  refine ⟨r2.1, ?_⟩
  rw [r2.2, r1.2]
  cases (producerStep o (producerStep o (producerStep o s0))).cons <;> rfl

/-! ## Lemmas on the process table -/

theorem Workers.pid_pos (w : Workers) (i : Fin 2) : 0 < w.pid i := by
  fin_cases i
  · exact w.pos0
  · exact w.pos1

theorem Workers.pid_inj (w : Workers) (i j : Fin 2) (h : w.pid i = w.pid j) : i = j := by
  have d := w.distinct
  fin_cases i <;> fin_cases j
  · rfl
  · exact absurd h d
  · exact absurd h.symm d
  · rfl

theorem Ending.status_terminated (how : Ending) : terminatedStatus how.status := by
  cases how with
  | exited code =>
    left
    rw [WIFEXITED_iff]; simp only [Ending.status, exitedStatus]; omega
  | killed sig core =>
    right
    have := sig.valid
    rw [WIFSIGNALED_iff]; simp only [Ending.status, signaledStatus]
    cases core <;> simp <;> omega

theorem mem_zombieOf (w : Workers) (child : Fin 2 → ChildState) (i : Fin 2) (t : Terminated) :
    t ∈ zombieOf w child i ↔ ∃ status, child i = ChildState.zombie status ∧
      t = { pid := w.pid i, status := status } := by
  unfold zombieOf
  cases h : child i <;> simp

theorem mem_zombies (w : Workers) (child : Fin 2 → ChildState) (o : Bool) (t : Terminated) :
    t ∈ zombies w child o ↔ ∃ i status, child i = ChildState.zombie status ∧
      t = { pid := w.pid i, status := status } := by
  unfold zombies
  cases o <;> simp only [if_true, if_false, Bool.false_eq_true, List.mem_append, mem_zombieOf,
    Fin.exists_fin_two]
  exact or_comm

theorem zombieOf_pids (w : Workers) (child : Fin 2 → ChildState) (i : Fin 2) :
    (zombieOf w child i).map Terminated.pid = [] ∨
      (zombieOf w child i).map Terminated.pid = [w.pid i] := by
  unfold zombieOf
  cases h : child i <;> simp

theorem zombies_nodup (w : Workers) (child : Fin 2 → ChildState) (o : Bool) :
    ((zombies w child o).map Terminated.pid).Nodup := by
  have d01 : w.pid 0 ≠ w.pid 1 := fun h => absurd (w.pid_inj 0 1 h) (by decide)
  unfold zombies
  cases o <;> simp only [if_true, if_false, Bool.false_eq_true, List.map_append] <;>
    rcases zombieOf_pids w child 0 with h0 | h0 <;>
    rcases zombieOf_pids w child 1 with h1 | h1 <;>
    simp [h0, h1, d01, Ne.symm d01]

theorem hostStep_inv (w : Workers) (h : Host) (answers : List Terminated) (e : Event)
    (inv : HostInv w h answers) :
    HostInv w (hostStep w h e) (answers ++ waitpidAnswers w h e) := by
  obtain ⟨hg, hr, hn, hv, hz⟩ := inv
  cases e with
  | ends i how =>
    simp only [waitpidAnswers, List.append_nil, hostStep]
    cases hc : h.child i with
    | running =>
      simp only
      refine ⟨hg, ?_, hn, hv, ?_⟩
      · intro j
        by_cases hji : j = i
        · subst hji
          simp only [Function.update_same]
          constructor
          · intro hh; exact absurd hh (by simp)
          · intro hm; exact absurd ((hr j).2 hm) (by rw [hc]; simp)
        · simp only [Function.update_noteq hji]
          exact hr j
      · intro j status hj
        by_cases hji : j = i
        · subst hji
          simp only [Function.update_same, ChildState.zombie.injEq] at hj
          rw [← hj]
          exact how.status_terminated
        · simp only [Function.update_noteq hji] at hj
          exact hz j status hj
    | zombie st => exact ⟨hg, hr, hn, hv, hz⟩
    | reaped => exact ⟨hg, hr, hn, hv, hz⟩
  | sigchld o =>
    simp only [waitpidAnswers, hostStep]
    have hzpos : ∀ t ∈ zombies w h.child o, 0 < t.pid ∧ terminatedStatus t.status := by
      intro t ht
      obtain ⟨i, status, hi, rfl⟩ := (mem_zombies w h.child o t).1 ht
      exact ⟨w.pid_pos i, hz i status hi⟩
    have hzpid : ∀ i, w.pid i ∈ (zombies w h.child o).map Terminated.pid ↔
        ∃ status, h.child i = ChildState.zombie status := by
      intro i
      constructor
      · intro hm
        obtain ⟨t, ht, hp⟩ := List.mem_map.1 hm
        obtain ⟨j, status, hj, rfl⟩ := (mem_zombies w h.child o t).1 ht
        have : j = i := w.pid_inj j i hp
        subst this
        exact ⟨status, hj⟩
      · rintro ⟨status, hi⟩
        exact List.mem_map.2 ⟨_, (mem_zombies w h.child o _).2 ⟨i, status, hi, rfl⟩, rfl⟩
    have hdrain := handle_sigchld_positive h.globals (zombies w h.child o)
      (fun t ht => (hzpos t ht).1)
    simp only [hdrain.2.1, List.not_mem_nil, if_false]
    refine ⟨?_, ?_, ?_, ?_, ?_⟩
    · simp only
      rw [hdrain.1, hg, reapAll_append]
    · intro i
      simp only [List.map_append, List.mem_append, hzpid, ← hr]
      cases hc : h.child i <;> simp
    · rw [List.map_append, List.nodup_append]
      refine ⟨hn, zombies_nodup w h.child o, ?_⟩
      intro p hp1 hp2
      obtain ⟨t, ht, rfl⟩ := List.mem_map.1 hp2
      obtain ⟨i, status, hi, rfl⟩ := (mem_zombies w h.child o t).1 ht
      have := (hr i).2 hp1
      rw [hi] at this
      exact absurd this (by simp)
    · intro t ht
      rcases List.mem_append.1 ht with h1 | h1
      · exact hv t h1
      · exact hzpos t h1
    · intro i status hi
      simp only at hi
      cases hc : h.child i <;> simp [hc] at hi

theorem hostRunFrom_inv (w : Workers) (events : List Event) :
    ∀ (h : Host) (answers : List Terminated), HostInv w h answers →
      HostInv w (hostRunFrom w h events) (answers ++ reapedBy w h events) := by
  induction events with
  | nil => intro h answers inv; simpa [hostRunFrom, reapedBy] using inv
  | cons e es ih =>
    intro h answers inv
    have := ih _ _ (hostStep_inv w h answers e inv)
    simpa [hostRunFrom, reapedBy, List.append_assoc] using this

theorem boot_inv (w : Workers) : HostInv w (Host.boot w) [] :=
  ⟨rfl, fun i => by simp [Host.boot], List.nodup_nil, fun t ht => absurd ht (List.not_mem_nil _),
    fun i status hi => by simp [Host.boot] at hi⟩

theorem hostRun_inv (w : Workers) (events : List Event) :
    HostInv w (hostRun w events) (reapedBy w (Host.boot w) events) := by
  have := hostRunFrom_inv w events (Host.boot w) [] (boot_inv w)
  simpa [hostRun] using this

theorem reapedBy_append (w : Workers) (xs ys : List Event) :
    ∀ h : Host, reapedBy w h (xs ++ ys) =
      reapedBy w h xs ++ reapedBy w (hostRunFrom w h xs) ys := by
  induction xs with
  | nil => intro h; simp [reapedBy, hostRunFrom]
  | cons e es ih =>
    intro h
    have := ih (hostStep w h e)
    simp only [hostRunFrom] at this
    simp only [List.cons_append, reapedBy, hostRunFrom, List.foldl_cons, List.append_eq, this,
      List.append_assoc]

theorem hostRun_append (w : Workers) (xs ys : List Event) :
    hostRun w (xs ++ ys) = hostRunFrom w (hostRun w xs) ys := by
  simp [hostRun, hostRunFrom, List.foldl_append]

/-- A slot written for no child twice keeps its first outcome. -/
theorem reapAll_written_once (p0 p1 : Int) (pre post : List Terminated) (i : Fin 2)
    (hnodup : ((pre ++ post).map Terminated.pid).Nodup) :
    ((pre ++ post).filter (fun t => decide (slotOf (pair p0 p1) t.pid = some i))).length ≤ 1 ∧
      ((reapAll (initialGlobals p0 p1) pre).child_exit_status i ≠ -1 →
        (reapAll (initialGlobals p0 p1) (pre ++ post)).child_exit_status i =
          (reapAll (initialGlobals p0 p1) pre).child_exit_status i) := by
  constructor
  · refine le_trans ?_ (filter_pid_length_le_one (pre ++ post) (pair p0 p1 i) hnodup)
    apply List.Sublist.length_le
    apply List.monotone_filter_right
    intro t ht
    simp only [decide_eq_true_eq] at ht ⊢
    exact (slotOf_pid _ _ _ ht).symm
  · intro hset
    rw [reapAll_append]
    have hinit : (initialGlobals p0 p1).child_exit_status i = -1 := by
      fin_cases i <;> rfl
    obtain ⟨t, ht, hslot⟩ := reapAll_status_changed (initialGlobals p0 p1) pre i
      (by rw [hinit]; exact hset)
    apply reapAll_status_untouched
    intro u hu hslotu
    rw [reapAll_pids] at hslotu
    have e1 := slotOf_pid _ _ _ hslot
    have e2 := slotOf_pid _ _ _ hslotu
    rw [List.map_append, List.nodup_append] at hnodup
    exact hnodup.2.2 (List.mem_map_of_mem _ ht) (by
      rw [← e1, e2]; exact List.mem_map_of_mem _ hu)

theorem hostRun_sentinel_iff (w : Workers) (events : List Event) (i : Fin 2) :
    (hostRun w events).globals.child_exit_status i = -1 ↔
      (hostRun w events).child i ≠ ChildState.reaped := by
  have inv := hostRun_inv w events
  rw [inv.globals_eq, sentinel_iff_not_reaped w.pid0 w.pid1 _ i w.distinct
    (fun t ht => (inv.valid t ht).2)]
  exact not_congr (inv.reaped_iff i).symm

/-- Claim C10. One invocation of `handle_sigchld` drains every pending
terminated child: whatever the globals and whatever the finite list of
terminated children `waitpid` has to report (pids are positive), the handler
returns, nothing is left pending, one record is logged per child, and
`child_exit_count` has grown by the number of children. -/
theorem handle_sigchld_drains_all (g : Globals) (children : List Terminated)
    (hpos : ∀ t ∈ children, 0 < t.pid) :
    (handle_sigchld g children).pending = [] ∧
      (handle_sigchld g children).logged.length = children.length ∧
      (handle_sigchld g children).globals.child_exit_count =
        g.child_exit_count + children.length := by
  obtain ⟨hg, hp, hl⟩ := handle_sigchld_positive g children hpos
  exact ⟨hp, hl, by rw [hg, reapAll_count]⟩

/-- Witness for `handle_sigchld_drains_all`: both workers and a stranger
pending at once. -/
theorem handle_sigchld_drains_all_witness :
    (handle_sigchld (initialGlobals 100 101)
        [⟨100, 2560⟩, ⟨101, 5120⟩, ⟨999, 9⟩]).pending = [] ∧
      (handle_sigchld (initialGlobals 100 101)
        [⟨100, 2560⟩, ⟨101, 5120⟩, ⟨999, 9⟩]).logged.length = 3 ∧
      (handle_sigchld (initialGlobals 100 101)
        [⟨100, 2560⟩, ⟨101, 5120⟩, ⟨999, 9⟩]).globals.child_exit_count = 0 + 3 :=
  handle_sigchld_drains_all (initialGlobals 100 101) [⟨100, 2560⟩, ⟨101, 5120⟩, ⟨999, 9⟩]
    (by decide)

/-- Claim C4, as stated, fails: reaping pid 999, which is in neither slot,
changes `child_exit_count` from 0 to 1. -/
theorem unknown_pid_counted :
    (999 : Int) ≠ (initialGlobals 100 101).child_pids 0 ∧
      (999 : Int) ≠ (initialGlobals 100 101).child_pids 1 ∧
      (initialGlobals 100 101).child_exit_count = 0 ∧
      (handle_sigchld (initialGlobals 100 101) [⟨999, 0⟩]).globals.child_exit_count = 1 := by
  decide

/-- Claim C4, amended. When `handle_sigchld` reaps a child whose pid is in
neither slot, both entries of `child_exit_status` and of `child_pids` stay as
they were, but the child is logged and counted: `child_exit_count` grows by
one. -/
theorem unknown_pid_keeps_slots (g : Globals) (t : Terminated) (hpos : 0 < t.pid)
    (h0 : t.pid ≠ g.child_pids 0) (h1 : t.pid ≠ g.child_pids 1) :
    (handle_sigchld g [t]).globals.child_exit_status = g.child_exit_status ∧
      (handle_sigchld g [t]).globals.child_pids = g.child_pids ∧
      (handle_sigchld g [t]).globals.child_exit_count = g.child_exit_count + 1 ∧
      (handle_sigchld g [t]).logged.length = 1 := by
  have hp : t.pid > 0 := hpos
  simp only [handle_sigchld, hp, if_true, reapOne_pids, reapOne_count, reapOne_status,
    List.length_singleton, and_true, true_and]
  unfold storeStatus
  simp [Ne.symm h0, Ne.symm h1]

/-- Witness for `unknown_pid_keeps_slots`. -/
theorem unknown_pid_keeps_slots_witness :
    (handle_sigchld (initialGlobals 100 101) [⟨999, 0⟩]).globals.child_exit_status =
        (initialGlobals 100 101).child_exit_status ∧
      (handle_sigchld (initialGlobals 100 101) [⟨999, 0⟩]).globals.child_pids =
        (initialGlobals 100 101).child_pids ∧
      (handle_sigchld (initialGlobals 100 101) [⟨999, 0⟩]).globals.child_exit_count =
        (initialGlobals 100 101).child_exit_count + 1 ∧
      (handle_sigchld (initialGlobals 100 101) [⟨999, 0⟩]).logged.length = 1 :=
  unknown_pid_keeps_slots (initialGlobals 100 101) ⟨999, 0⟩ (by decide) (by decide) (by decide)

/-- Claim C3. For every sequence of termination events of the two workers that
`handle_sigchld` processes, each slot of `child_exit_status` is written at most
once, and once a slot holds a non-sentinel outcome no later reaping step
changes it; a slot holds an outcome exactly when its worker has been reaped. -/
theorem slot_written_once (w : Workers) (earlier later : List Event) (i : Fin 2) :
    ((reapedBy w (Host.boot w) (earlier ++ later)).filter
        (fun t => decide (slotOf w.pid t.pid = some i))).length ≤ 1 ∧
      ((hostRun w earlier).globals.child_exit_status i ≠ -1 →
        (hostRun w (earlier ++ later)).globals.child_exit_status i =
          (hostRun w earlier).globals.child_exit_status i) ∧
      ((hostRun w earlier).globals.child_exit_status i ≠ -1 ↔
        (hostRun w earlier).child i = ChildState.reaped) := by
  have inv := hostRun_inv w (earlier ++ later)
  have inv0 := hostRun_inv w earlier
  have happ := reapedBy_append w earlier later (Host.boot w)
  have hn := inv.nodup
  rw [happ] at hn
  have key := reapAll_written_once w.pid0 w.pid1 (reapedBy w (Host.boot w) earlier)
    (reapedBy w (hostRunFrom w (Host.boot w) earlier) later) i hn
  refine ⟨?_, ?_, ?_⟩
  · rw [happ]; exact key.1
  · rw [inv.globals_eq, inv0.globals_eq, happ]; exact key.2
  · rw [Ne, hostRun_sentinel_iff, not_not]

/-- Witness for `slot_written_once`: the producer exits with 10 and is reaped;
later the consumer is killed by signal 9 and the handler runs twice more.
Slot 0 holds 10 and keeps it. -/
theorem slot_written_once_witness :
    (hostRun ⟨100, 101, by decide, by decide, by decide⟩
        [.ends 0 (.exited 10), .sigchld false]).globals.child_exit_status 0 = 10 ∧
      (hostRun ⟨100, 101, by decide, by decide, by decide⟩
        ([.ends 0 (.exited 10), .sigchld false] ++
          [.ends 1 (.killed ⟨9, by decide⟩ false), .ends 0 (.exited 3), .sigchld true,
            .sigchld false])).globals.child_exit_status 0 =
        (hostRun ⟨100, 101, by decide, by decide, by decide⟩
          [.ends 0 (.exited 10), .sigchld false]).globals.child_exit_status 0 :=
  ⟨by decide,
    (slot_written_once ⟨100, 101, by decide, by decide, by decide⟩
      [.ends 0 (.exited 10), .sigchld false]
      [.ends 1 (.killed ⟨9, by decide⟩ false), .ends 0 (.exited 3), .sigchld true,
        .sigchld false] 0).2.1 (by decide)⟩

/-- Claim C9, as stated, fails: a worker that exits with code 9 and a worker
killed by signal 9 leave the same value in the slot. -/
theorem exit_and_signal_collide :
    WIFEXITED (exitedStatus 9) = true ∧ WIFSIGNALED (signaledStatus 9) = true ∧
      (handle_sigchld (initialGlobals 100 101) [⟨100, exitedStatus 9⟩]).globals.child_exit_status 0
        = (handle_sigchld (initialGlobals 100 101)
            [⟨100, signaledStatus 9⟩]).globals.child_exit_status 0 := by
  decide

/-- Claim C9, amended. The slot is a bare `int` without a tag: for a worker
that exited with code `c` it receives `c`, for a worker killed by signal `s` it
receives `s`, so the two slot values differ exactly when `c ≠ s`. The kind of
the outcome is kept apart only in the log record, and no status is decoded
both as an exit and as a signal. -/
theorem slot_holds_bare_number (g : Globals) (pid c s : Int) (i : Fin 2)
    (hpid : 0 < pid) (hslot : slotOf g.child_pids pid = some i)
    (hc : 0 ≤ c ∧ c ≤ 255) (hs : 1 ≤ s ∧ s ≤ 126) :
    (handle_sigchld g [⟨pid, exitedStatus c⟩]).globals.child_exit_status i = c ∧
      (handle_sigchld g [⟨pid, signaledStatus s⟩]).globals.child_exit_status i = s ∧
      ((handle_sigchld g [⟨pid, exitedStatus c⟩]).globals.child_exit_status i =
          (handle_sigchld g [⟨pid, signaledStatus s⟩]).globals.child_exit_status i ↔ c = s) ∧
      (handle_sigchld g [⟨pid, exitedStatus c⟩]).logged = [Msg.childExited pid c] ∧
      (handle_sigchld g [⟨pid, signaledStatus s⟩]).logged = [Msg.childSignaled pid s] ∧
      ∀ status, ¬ (WIFEXITED status = true ∧ WIFSIGNALED status = true) := by
  have hp : pid > 0 := hpid
  have he : WIFEXITED (exitedStatus c) = true := by
    rw [WIFEXITED_iff]; unfold exitedStatus; omega
  have hev : WEXITSTATUS (exitedStatus c) = c := by
    unfold WEXITSTATUS exitedStatus; omega
  have hs1 : WIFEXITED (signaledStatus s) = false := by
    rw [← Bool.not_eq_true, WIFEXITED_iff]; unfold signaledStatus; omega
  have hs2 : WIFSIGNALED (signaledStatus s) = true := by
    rw [WIFSIGNALED_iff]; unfold signaledStatus; omega
  have hsv : WTERMSIG (signaledStatus s) = s := by
    unfold WTERMSIG signaledStatus; omega
  have hde : decodeStatus pid (exitedStatus c) = (c, Msg.childExited pid c) := by
    simp [decodeStatus, he, hev]
  have hds : decodeStatus pid (signaledStatus s) = (s, Msg.childSignaled pid s) := by
    simp [decodeStatus, hs1, hs2, hsv]
  have e1 : (handle_sigchld g [⟨pid, exitedStatus c⟩]).globals.child_exit_status i = c := by
    simp only [handle_sigchld, hp, if_true, reapOne_status, hde]
    exact storeStatus_same _ _ _ _ _ hslot
  have e2 : (handle_sigchld g [⟨pid, signaledStatus s⟩]).globals.child_exit_status i = s := by
    simp only [handle_sigchld, hp, if_true, reapOne_status, hds]
    exact storeStatus_same _ _ _ _ _ hslot
  refine ⟨e1, e2, by rw [e1, e2], ?_, ?_, ?_⟩
  · simp [handle_sigchld, hp, reapOne, hde]
  · simp [handle_sigchld, hp, reapOne, hds]
  · intro status h
    have h1 := (WIFEXITED_iff status).1 h.1
    have h2 := (WIFSIGNALED_iff status).1 h.2
    omega

/-- Witness for `slot_holds_bare_number`: pid 101 sits in slot 1; exit code 20
against signal 9. -/
theorem slot_holds_bare_number_witness :
    (handle_sigchld (initialGlobals 100 101) [⟨101, exitedStatus 20⟩]).globals.child_exit_status 1
        = 20 ∧
      (handle_sigchld (initialGlobals 100 101)
        [⟨101, signaledStatus 9⟩]).globals.child_exit_status 1 = 9 :=
  have h := slot_holds_bare_number (initialGlobals 100 101) 101 20 9 1 (by decide) (by decide)
    (by decide) (by decide)
  ⟨h.1, h.2.1⟩

/-! ## Claims on the monitor loop -/

/-- Claim C6, evaluated on the failing input. The producer (pid 100) exited
with code 10 and was reaped, then the timeout branch runs: the final status
line for slot 0 prints 0, not the recorded outcome 10, because line 252
applies `WEXITSTATUS` to a value that line 55 had already decoded. The same
happens for every recorded exit code. -/
theorem final_status_line_loses_outcome :
    (handle_sigchld (initialGlobals 100 101) [⟨100, exitedStatus 10⟩]).globals.child_exit_status 0
        = 10 ∧
      superviseAndExit 0 (initialGlobals 100 101) [⟨[⟨100, exitedStatus 10⟩], 31⟩] =
        some ([Action.log Msg.proceeding, Action.log (Msg.childExited 100 10),
          Action.log Msg.timeoutReached, Action.kill 101 SIGKILL, Action.log Msg.killedChild,
          Action.log (Msg.finalStatus 100 0), Action.log (Msg.finalStatus 101 255),
          Action.log Msg.shuttingDown, Action.fcloseLog, Action.unlink FIFO1,
          Action.unlink FIFO2], 0) ∧
      ∀ code : Int, WEXITSTATUS (code % 256) = 0 := by
  refine ⟨by decide, by decide, ?_⟩
  intro code
  unfold WEXITSTATUS
  omega

/-! ## Claims on the read loop and the producer -/

/-- Claim C7, as stated, fails: after a failed read and an empty read, a read
that returns only the first 2 of the 4 bytes of the value 16909060 ends the
loop; `read_bytes` is 2, the variable holds 772, and the other two bytes are
left for the next read. -/
theorem readLoop_accepts_short_read :
    int32Bytes 16909060 = [4, 3, 2, 1] ∧
      readLoop 0 [⟨-1, []⟩, ⟨0, []⟩, ⟨2, [4, 3]⟩, ⟨2, [2, 1]⟩] =
        some (2, 772, [⟨2, [2, 1]⟩]) := by
  decide

/-- Claim C7, amended. The read loop retries on every zero or negative result
of `read` and is left at the first positive result, whatever its size (1 to 4
bytes): it never takes a zero or negative result for a value, but it does take
a short read. The bytes that arrived overwrite the start of the variable. -/
theorem readLoop_first_positive (x : Int) (failed : List ReadResult) (r : ReadResult)
    (rest : List ReadResult) (hfailed : ∀ f ∈ failed, f.ret ≤ 0) (hr : 0 < r.ret) :
    readLoop x failed = none ∧
      readLoop x (failed ++ r :: rest) = some (r.ret, storeBytes x r.data, rest) := by
  induction failed with
  | nil =>
    have : ¬ r.ret ≤ 0 := not_le.2 hr
    simp [readLoop, readAttempt, this]
  | cons f fs ih =>
    have hf : f.ret ≤ 0 := hfailed f (List.mem_cons_self _ _)
    have := ih (fun u hu => hfailed u (List.mem_cons_of_mem _ hu))
    simp only [readLoop, readAttempt, hf, if_true, List.cons_append]
    exact this

/-- Witness for `readLoop_first_positive`: two failed polls, then a read of 3
bytes. -/
theorem readLoop_first_positive_witness :
    readLoop 0 [⟨-1, []⟩, ⟨0, []⟩] = none ∧
      readLoop 0 ([⟨-1, []⟩, ⟨0, []⟩] ++ ⟨3, [1, 2, 3]⟩ :: []) =
        some (3, storeBytes 0 [1, 2, 3], []) :=
  readLoop_first_positive 0 [⟨-1, []⟩, ⟨0, []⟩] ⟨3, [1, 2, 3]⟩ [] (by decide) (by decide)

/-- Claim C8, as stated, fails: with a failed open of FIFO1 in the producer
(descriptor -1) there is no schedule after which the producer has exited with
a code other than 0 and 10; it has not exited at all. -/
theorem failed_open_gives_no_exit_code :
    ¬ ∃ (sched : List Proc) (code : Int),
      (run ⟨3, -1, 4, 5⟩ 3 7 0 sched).prod_exit = some code ∧ code ≠ 0 ∧ code ≠ 10 := by
  rintro ⟨sched, code, hexit, -, -⟩
  have h := foldl_step_stuck ⟨3, -1, 4, 5⟩ 3 7 sched (by decide) (Pipeline.start 0)
    ⟨rfl, rfl, rfl, rfl, rfl⟩
  unfold run at hexit
  rw [h.2.1] at hexit
  exact Option.noConfusion hexit

/-- Claim C8, amended. The result of `open` is not checked. If the producer
worker fails to open FIFO1, every `read` on the bad descriptor fails and the
first read loop never ends: under every schedule the producer is still in that
loop, has not exited and has written nothing to FIFO2. It does not terminate
on its own, and the only exit code the producer ever uses is 10. -/
theorem producer_spins_on_failed_open (o : Opens) (num1 num2 junk : Int) (sched : List Proc)
    (hfd : o.prod_fd1 < 0) :
    (run o num1 num2 junk sched).prod = ProdPc.readA ∧
      (run o num1 num2 junk sched).prod_exit = none ∧
      (run o num1 num2 junk sched).fifo2 = [] ∧
      (run o num1 num2 junk sched).log = [] ∧
      ∀ (o2 : Opens) (sched2 : List Proc) (code : Int),
        (run o2 num1 num2 junk sched2).prod_exit = some code → code = 10 := by
  have h := foldl_step_stuck o num1 num2 sched hfd (Pipeline.start junk) ⟨rfl, rfl, rfl, rfl, rfl⟩
  refine ⟨h.1, h.2.1, h.2.2.1, h.2.2.2.2, ?_⟩
  · intro o2 sched2 code hcode
    rcases foldl_step_exit_code o2 num1 num2 sched2 (Pipeline.start junk) (Or.inl rfl) with h0 | h0
    · unfold run at hcode; rw [h0] at hcode; exact Option.noConfusion hcode
    · unfold run at hcode; rw [h0] at hcode; exact (Option.some.inj hcode).symm

/-- Witness for `producer_spins_on_failed_open`: the open fails with -1 and
the producer is scheduled five times after the supervisor wrote both numbers. -/
theorem producer_spins_on_failed_open_witness :
    (run ⟨3, -1, 4, 5⟩ 3 7 0 [.supervisor, .supervisor, .producer, .producer, .producer,
        .producer, .producer]).prod = ProdPc.readA ∧
      (run ⟨3, -1, 4, 5⟩ 3 7 0 [.supervisor, .supervisor, .producer, .producer, .producer,
        .producer, .producer]).prod_exit = none :=
  have h := producer_spins_on_failed_open ⟨3, -1, 4, 5⟩ 3 7 0
    [.supervisor, .supervisor, .producer, .producer, .producer, .producer, .producer]
    (by decide)
  ⟨h.1, h.2.1⟩

/-! ## Claim on the whole pipeline -/

/-- Claim C1. For every pair of 32-bit signed integers `(a, b)`, when all four
opens succeed: under every interleaving of the supervisor, the producer and
the consumer, the log of the consumer is empty until the consumer has exited
and is then the one record `The larger number is: max(a, b)`; and after every
interleaving, letting each process run to its end makes the consumer report
`max(a, b)`, the producer exit with 10 and the consumer with 20. For `a = b`
the reported value is that common value. -/
theorem consumer_reports_max (o : Opens) (a b junk : Int) (ha : isInt32 a) (hb : isInt32 b)
    (hopen : 0 ≤ o.sup_fd1 ∧ 0 ≤ o.prod_fd1 ∧ 0 ≤ o.prod_fd2 ∧ 0 ≤ o.cons_fd2) :
    (∀ sched : List Proc,
      (run o a b junk sched).log =
        if (run o a b junk sched).cons = ConsPc.exited then [Msg.largerNumber (max a b)]
        else []) ∧
      (∀ sched : List Proc,
        (run o a b junk (sched ++ inOrder)).log = [Msg.largerNumber (max a b)] ∧
          (run o a b junk (sched ++ inOrder)).prod_exit = some 10 ∧
          (run o a b junk (sched ++ inOrder)).cons_exit = some 20) ∧
      (a = b → (run o a b junk inOrder).log = [Msg.largerNumber a]) := by
  have hsafe : ∀ sched : List Proc,
      (run o a b junk sched).log =
        if (run o a b junk sched).cons = ConsPc.exited then [Msg.largerNumber (max a b)]
        else [] := by
    intro sched
    have := (run_inv o a b sched hopen ha hb (Pipeline.start junk) (start_inv a b junk)).logged
    rw [larger_eq_max] at this
    exact this
  have hlive : ∀ sched : List Proc,
      (run o a b junk (sched ++ inOrder)).log = [Msg.largerNumber (max a b)] ∧
        (run o a b junk (sched ++ inOrder)).prod_exit = some 10 ∧
        (run o a b junk (sched ++ inOrder)).cons_exit = some 20 := by
    intro sched
    have hinv := run_inv o a b sched hopen ha hb (Pipeline.start junk) (start_inv a b junk)
    have hfin := inOrder_finishes o a b _ hopen ha hb hinv
    have hcodes := foldl_step_exit_codes o a b (sched ++ inOrder) (Pipeline.start junk)
      ⟨rfl, rfl⟩
    have hlog := hsafe (sched ++ inOrder)
    simp only [run, List.foldl_append] at hlog hcodes ⊢
    rw [hfin.2, if_pos rfl] at hlog
    rw [hfin.1, hfin.2, if_pos rfl, if_pos rfl] at hcodes
    exact ⟨hlog, hcodes.1, hcodes.2⟩
  refine ⟨hsafe, hlive, ?_⟩
  intro hab
  have := (hlive []).1
  rw [List.nil_append, hab, max_self] at this
  rw [hab]
  exact this

/-- Witness for `consumer_reports_max`: the scenario (3, 7) of the
specification, where the consumer and the producer poll before the supervisor
has written anything. -/
theorem consumer_reports_max_witness :
    (run ⟨3, 4, 5, 6⟩ 3 7 0 ([.consumer, .producer, .supervisor] ++ inOrder)).log =
        [Msg.largerNumber (max 3 7)] ∧
      (run ⟨3, 4, 5, 6⟩ 3 7 0 ([.consumer, .producer, .supervisor] ++ inOrder)).prod_exit =
        some 10 ∧
      (run ⟨3, 4, 5, 6⟩ 3 7 0 ([.consumer, .producer, .supervisor] ++ inOrder)).cons_exit =
        some 20 :=
  (consumer_reports_max ⟨3, 4, 5, 6⟩ 3 7 0 (by decide) (by decide) (by decide)).2.1
    [.consumer, .producer, .supervisor]

end Daemon
